import Mathlib

/- A shallow embedding of the langgraph Kafka orchestrator
   (libs/scheduler-kafka/langgraph/scheduler/kafka/orchestrator.py) and of the
   functional-API entrypoint decorator (libs/langgraph/langgraph/func/__init__.py),
   together with theorems settling the specification claims about them.

   The orchestrator methods are asynchronous and effectful; we embed them as
   functions producing an explicit event trace, parameterised by the parts of the
   environment that are external to the embedded code (the deserializer, the
   outcome of each retry attempt, and the state exposed by the Pregel loop). -/

deriving instance DecidableEq for Except

namespace LangGraph

/-- Modelled constant from langgraph.constants (module not under the sources):
the reserved START channel name. -/
def START : String := "__start__"

/-- Modelled constant from langgraph.constants: the reserved END channel name. -/
def END : String := "__end__"

/-- Modelled constant from langgraph.constants: tag hiding a writer from streams. -/
def TAG_HIDDEN : String := "langsmith:hidden"

/-- Modelled constant from langgraph.constants: the INTERRUPT key of versions_seen. -/
def INTERRUPT : String := "__interrupt__"

/-- Modelled constant from langgraph.constants: the SCHEDULED write channel. -/
def SCHEDULED : String := "__scheduled__"

/-- Modelled constant from langgraph.constants: the dedupe_tasks configurable key. -/
def CONFIG_KEY_DEDUPE_TASKS : String := "__pregel_dedupe_tasks"

/-- A dynamic configuration value (the configurable map is heterogeneous). -/
inductive CVal where
  | s (v : String)
  | b (v : Bool)
  | n (v : Nat)
  | null
deriving DecidableEq

/-- An association map from string keys to dynamic values, as a Python dict. -/
abbrev ConfMap := List (String × CVal)

/-- A configuration envelope: the configurable sub-map. -/
structure Config where
  configurable : ConfMap
deriving DecidableEq

/-- MessageToOrchestrator from langgraph.scheduler.kafka.types: input and config. -/
structure MessageToOrchestrator where
  input : CVal
  config : Config
deriving DecidableEq

/-- ExecutorTask from langgraph.scheduler.kafka.types: the id and path of a task. -/
structure ExecutorTask where
  id : String
  path : List String
deriving DecidableEq

/-- MessageToExecutor from langgraph.scheduler.kafka.types: config and task. -/
structure MessageToExecutor where
  config : Config
  task : ExecutorTask
deriving DecidableEq

/-- ErrorMessage from langgraph.scheduler.kafka.types: source topic, original
message and stringified error. -/
structure ErrorMessage where
  topic : String
  msg : MessageToOrchestrator
  error : String
deriving DecidableEq

/-- Topics from langgraph.scheduler.kafka.types: the named topic triple. -/
structure Topics where
  orchestrator : String
  executor : String
  error : String
deriving DecidableEq

/-- Modelled from the spec: the helper langgraph.utils.config.patch_configurable is
not under the sources. Python dict-merge of two string-keyed maps: keys of the base
keep their position, with values overridden by the patch; new patch keys follow. -/
def dictMerge (base patch : ConfMap) : ConfMap :=
  (base.map fun kv =>
    match patch.lookup kv.1 with
    | some v => (kv.1, v)
    | none => kv) ++
  patch.filter fun pv => base.all fun kv => kv.1 != pv.1

/-- Modelled from the spec: patch_configurable returns the config with its
configurable sub-map dict-merged with the patch. -/
def patch_configurable (c : Config) (patch : ConfMap) : Config :=
  { c with configurable := dictMerge c.configurable patch }

/-- A task of the Pregel loop, as seen by the orchestrator: id, path and the
scheduled flag. -/
structure PregelTask where
  id : String
  path : List String
  scheduled : Bool
deriving DecidableEq

/-- The state exposed by AsyncPregelLoop to one successful attempt of
KafkaOrchestrator.attempt: the tick result, whether the loop exposes a
checkpoint future, the task map values, loop.config, the configurable sub-map of
loop.checkpoint_config, and loop.checkpoint versions_seen. The loop class is
external to the embedded file, so this state is environment-supplied. -/
structure LoopState where
  tick_result : Bool
  has_put_checkpoint_fut : Bool
  tasks : List PregelTask
  config : Config
  checkpoint_configurable : ConfMap
  versions_seen : List (String × List (String × Nat))
deriving DecidableEq

/-- Events one call of KafkaOrchestrator.attempt can perform, in program order. -/
inductive AEvent where
  | engineTick
  | awaitCheckpoint
  | sendExecutor (m : MessageToExecutor)
  | ackExecutor (taskId : String)
  | putWrite (taskId : String) (writes : List (String × Option Nat))
deriving DecidableEq

/-- Events one call of KafkaOrchestrator.each can perform: attempt events plus
an error-topic send. -/
inductive MEvent where
  | att (e : AEvent)
  | sendError (e : ErrorMessage)
deriving DecidableEq

/-- Events one iteration of KafkaOrchestrator can perform: per-message events
tagged by the payload of the message, plus the consumer commit. -/
inductive BEvent where
  | msg (payload : String) (e : MEvent)
  | commit
deriving DecidableEq

/-- Python max over a list of versions with default None. -/
def maxOpt : List Nat → Option Nat
  | [] => none
  | v :: vs =>
    match maxOpt vs with
    | none => some v
    | some w => some (max v w)

namespace KafkaOrchestrator

/-- The list comprehension new_tasks of KafkaOrchestrator.attempt: the loop tasks
whose scheduled flag is false. -/
def newTasks (st : LoopState) : List PregelTask :=
  st.tasks.filter fun t => !t.scheduled

/-- The value written for SCHEDULED in KafkaOrchestrator.attempt: the max over the
values of versions_seen.get(INTERRUPT, empty), with default None. -/
def scheduledVersion (st : LoopState) : Option Nat :=
  maxOpt (((st.versions_seen.lookup INTERRUPT).getD []).map Prod.snd)

/-- The MessageToExecutor built by KafkaOrchestrator.attempt for one task: the loop
config patched with the checkpoint_config configurable entries dict-merged with the
dedupe_tasks key set to true, and the task id and path. -/
def executorMessage (st : LoopState) (t : PregelTask) : MessageToExecutor :=
  { config := patch_configurable st.config
      (dictMerge st.checkpoint_configurable [(CONFIG_KEY_DEDUPE_TASKS, CVal.b true)])
  , task := { id := t.id, path := t.path } }

/-- The events of one attempt after the tick call, following the source order: if
tick returned false, nothing; if true, await the checkpoint future when exposed,
then, when new_tasks is nonempty, send one executor message per task, await all
acknowledgments, then put one SCHEDULED write per task. -/
def attemptRest (st : LoopState) : List AEvent :=
  if st.tick_result then
    (if st.has_put_checkpoint_fut then [AEvent.awaitCheckpoint] else []) ++
    (match newTasks st with
     | [] => []
     | nt =>
       (nt.map fun t => AEvent.sendExecutor (executorMessage st t)) ++
       (nt.map fun t => AEvent.ackExecutor t.id) ++
       (nt.map fun t => AEvent.putWrite t.id [(SCHEDULED, scheduledVersion st)]))
  else []

/-- The full event trace of one successful call of KafkaOrchestrator.attempt: the
loop tick is invoked exactly once, then the rest. -/
def attemptTrace (st : LoopState) : List AEvent :=
  AEvent.engineTick :: attemptRest st

/-- The outcome of one attempt, supplied by the environment: either the attempt ran
to completion with the given loop state, or it raised partway with an
environment-chosen trace of the events performed before the raise and the repr of
the exception. -/
inductive AttemptOutcome where
  | ok (st : LoopState)
  | fail (tr : List AEvent) (excRepr : String)
deriving DecidableEq

/-- The retry policy of langgraph.pregel.types, restricted to the field the
orchestrator model consumes. -/
structure RetryPolicy where
  max_attempts : Nat
deriving DecidableEq

/-- Modelled from the spec: with no configured policy a single attempt is made. -/
def attemptsOf : Option RetryPolicy → Nat
  | none => 1
  | some p => p.max_attempts

/-- Modelled from the spec: the aretry helper (module
langgraph.scheduler.kafka.retry is not under the sources) runs the operation up to
the given number of attempts, returning on the first success and surfacing the last
failure on exhaustion. The outcome of attempt number k is env k; the returned trace
concatenates the events of every attempt made. -/
def aretryGo (env : Nat → AttemptOutcome) (k : Nat) : Nat → List AEvent × Except String Unit
  | 0 => ([], Except.error "retry: no attempts made")
  | n + 1 =>
    match env k with
    | AttemptOutcome.ok st => (attemptTrace st, Except.ok ())
    | AttemptOutcome.fail tr e =>
      match n with
      | 0 => (tr, Except.error e)
      | m + 1 =>
        let r := aretryGo env (k + 1) (m + 1)
        (tr ++ r.1, r.2)

/-- The event trace of KafkaOrchestrator.each on one message: the retried attempt
events; if the retry harness surfaced a failure, one ErrorMessage send to the error
topic carrying the orchestrator topic name, the original message and the repr of
the failure. -/
def eachTrace (topics : Topics) (policy : Option RetryPolicy)
    (env : Nat → AttemptOutcome) (m : MessageToOrchestrator) : List MEvent :=
  match aretryGo env 0 (attemptsOf policy) with
  | (tr, Except.ok _) => tr.map MEvent.att
  | (tr, Except.error e) =>
      tr.map MEvent.att ++ [MEvent.sendError ⟨topics.orchestrator, m, e⟩]

/-- The dedup of KafkaOrchestrator.anext: the set of payload values across all
partitions of the batch. -/
def uniqPayloads (recs : List (List String)) : List String :=
  recs.flatten.dedup

/-- The list comprehension deserializing every unique payload: the first failing
payload raises, as the Python comprehension does. The deserializer serde.loads is a
deployment-chosen codec, supplied as a parameter. -/
def loadAll (loads : String → Except String MessageToOrchestrator) :
    List String → Except String (List MessageToOrchestrator)
  | [] => Except.ok []
  | p :: ps =>
    match loads p with
    | Except.error e => Except.error e
    | Except.ok m =>
      match loadAll loads ps with
      | Except.error e => Except.error e
      | Except.ok ms => Except.ok (m :: ms)

/-- The per-message part of the batch trace: for each unique payload in order, the
events of KafkaOrchestrator.each on its deserialized message, tagged with the
payload. -/
def batchBody (topics : Topics) (policy : Option RetryPolicy)
    (env : String → Nat → AttemptOutcome) :
    List String → List MessageToOrchestrator → List BEvent
  | p :: ps, m :: ms =>
    ((eachTrace topics policy (env p) m).map (BEvent.msg p)) ++
      batchBody topics policy env ps ms
  | _, _ => []

/-- One iteration of KafkaOrchestrator.anext on a polled batch (one payload list
per partition): dedupe payloads, deserialize each unique payload (a failure
propagates out of the iteration, as only ConsumerStoppedError is caught), process
every message, then commit consumer offsets, returning the unique messages. -/
def anext (topics : Topics) (policy : Option RetryPolicy)
    (loads : String → Except String MessageToOrchestrator)
    (env : String → Nat → AttemptOutcome)
    (recs : List (List String)) :
    Except String (List BEvent × List MessageToOrchestrator) :=
  match loadAll loads (uniqPayloads recs) with
  | Except.error e => Except.error e
  | Except.ok msgs =>
      Except.ok (batchBody topics policy env (uniqPayloads recs) msgs ++ [BEvent.commit], msgs)

end KafkaOrchestrator

/-- The kind of function handed to the entrypoint decorator, as probed by
inspect.isgeneratorfunction and inspect.isasyncgenfunction. -/
inductive FuncKind where
  | plain
  | gen
  | agen
deriving DecidableEq

/-- A function as the entrypoint decorator sees it: a dunder name and a kind. -/
structure FuncDef where
  name : String
  kind : FuncKind
deriving DecidableEq

/-- The runnable bound into the node: the function itself, or one of the two
stream-writer wrappers built for generator functions. -/
inductive Bound where
  | runnable (fname : String)
  | genWrapper (fname : String)
  | agenWrapper (fname : String)
deriving DecidableEq

/-- One entry of a ChannelWrite: the channel written with the node return value. -/
structure ChannelWriteEntryM where
  channel : String
deriving DecidableEq

/-- A ChannelWrite writer: its entries and its tags. -/
structure ChannelWriteM where
  entries : List ChannelWriteEntryM
  tags : List String
deriving DecidableEq

/-- A channel specification of the compiled graph. -/
inductive ChannelSpec where
  | ephemeralValue
  | lastValue (key : String)
deriving DecidableEq

/-- A PregelNode as constructed by the entrypoint decorator. -/
structure PregelNode where
  bound : Bound
  triggers : List String
  channels : List String
  writers : List ChannelWriteM
deriving DecidableEq

/-- The Pregel graph record, restricted to the fields the decorator populates. -/
structure Pregel where
  nodes : List (String × PregelNode)
  channels : List (String × ChannelSpec)
  input_channels : String
  output_channels : String
  stream_channels : String
  stream_mode : String
  checkpointer : Option String
  store : Option String
deriving DecidableEq

/-- The entrypoint decorator of langgraph.func: wraps a generator function in a
stream-writer wrapper with stream_mode custom, binds a plain function directly with
stream_mode updates, and returns a Pregel graph with a single node named after the
function, triggered by START, reading START, and writing its return value to END. -/
def entrypointGraph (checkpointer store : Option String) (func : FuncDef) : Pregel :=
  let bs : Bound × String :=
    match func.kind with
    | FuncKind.gen => (Bound.genWrapper func.name, "custom")
    | FuncKind.agen => (Bound.agenWrapper func.name, "custom")
    | FuncKind.plain => (Bound.runnable func.name, "updates")
  { nodes := [(func.name,
      { bound := bs.1
      , triggers := [START]
      , channels := [START]
      , writers := [{ entries := [{ channel := END }], tags := [TAG_HIDDEN] }] })]
  , channels := [(START, ChannelSpec.ephemeralValue), (END, ChannelSpec.lastValue END)]
  , input_channels := START
  , output_channels := END
  , stream_channels := END
  , stream_mode := bs.2
  , checkpointer := checkpointer
  , store := store }

/-- Count of an element in a list, used to state exactly-once properties. -/
def cnt {α : Type} [DecidableEq α] (x : α) : List α → Nat
  | [] => 0
  | y :: l => (if y = x then 1 else 0) + cnt x l

/-- The per-message events of a batch trace carrying the given payload tag, in
order. -/
def msgEvents (p : String) : List BEvent → List MEvent
  | [] => []
  | BEvent.msg q e :: l => if q = p then e :: msgEvents p l else msgEvents p l
  | BEvent.commit :: l => msgEvents p l

section Fixtures

open KafkaOrchestrator

/-- A concrete topic triple used by the concrete instances below. -/
def topics0 : Topics := ⟨"orchestrator", "executor", "error"⟩

/-- A concrete run configuration. -/
def cfg0 : Config := ⟨[("thread_id", CVal.s "t1")]⟩

/-- A concrete orchestrator message. -/
def msg0 : MessageToOrchestrator := ⟨CVal.n 1, cfg0⟩

/-- A concrete unscheduled task. -/
def task0 : PregelTask := ⟨"task-1", ["pull"], false⟩

/-- A concrete loop state with a true tick, an exposed checkpoint future, one
unscheduled task and an INTERRUPT entry in versions_seen. -/
def st0 : LoopState :=
  { tick_result := true
  , has_put_checkpoint_fut := true
  , tasks := [task0]
  , config := cfg0
  , checkpoint_configurable := [("checkpoint_id", CVal.s "c1")]
  , versions_seen := [(INTERRUPT, [("chan", 3)])] }

/-- A concrete deserializer failing on the payload bad and succeeding elsewhere. -/
def loads0 : String → Except String MessageToOrchestrator :=
  fun p => if p = "bad" then Except.error "ValueError: bad payload"
           else Except.ok ⟨CVal.s p, cfg0⟩

/-- A concrete environment in which every attempt of every message succeeds with
the loop state st0. -/
def env0 : String → Nat → AttemptOutcome :=
  fun _ _ => AttemptOutcome.ok st0

/-- The loop state st0 with a false tick result. -/
def stf : LoopState := { st0 with tick_result := false }

/-- The loop state st0 with its only task already scheduled, so that a true tick
yields no unscheduled tasks. -/
def stn : LoopState := { st0 with tasks := [⟨"task-1", ["pull"], true⟩] }

/-- The loop state st0 without any versions_seen entry. -/
def st1 : LoopState := { st0 with versions_seen := [] }

/-- The batch trace produced by one iteration on the single payload p1 under env0:
the attempt events of st0 tagged with p1, then the commit. -/
def trace4 : List BEvent :=
  (attemptTrace st0).map (fun e => BEvent.msg "p1" (MEvent.att e)) ++ [BEvent.commit]

/-- The message the payload px deserializes to under loads0. -/
def m9 : MessageToOrchestrator := ⟨CVal.s "px", cfg0⟩

/-- A concrete environment in which every attempt of every message raises before
performing any event. -/
def env9 : String → Nat → AttemptOutcome :=
  fun _ _ => AttemptOutcome.fail [] "RuntimeError: boom"

/-- The batch trace produced by one iteration on the single payload px under env9
with two attempts: the single error-topic send tagged with px, then the commit. -/
def trace9 : List BEvent :=
  [BEvent.msg "px" (MEvent.sendError ⟨"orchestrator", m9, "RuntimeError: boom"⟩),
   BEvent.commit]

/-- A concrete retry policy allowing two attempts. -/
def pol9 : Option RetryPolicy := some ⟨2⟩

end Fixtures

section Lemmas

open KafkaOrchestrator

theorem cnt_append {α : Type} [DecidableEq α] (x : α) (l1 l2 : List α) :
    cnt x (l1 ++ l2) = cnt x l1 + cnt x l2 := by
  induction l1 with
  | nil => simp [cnt]
  | cons y l ih => simp [cnt, ih]; omega

theorem cnt_eq_zero {α : Type} [DecidableEq α] (x : α) (l : List α) (h : x ∉ l) :
    cnt x l = 0 := by
  induction l with
  | nil => rfl
  | cons y l ih =>
    simp only [List.mem_cons, not_or] at h
    simp [cnt, ih h.2, Ne.symm h.1]

theorem msgEvents_append (p : String) (l1 l2 : List BEvent) :
    msgEvents p (l1 ++ l2) = msgEvents p l1 ++ msgEvents p l2 := by
  induction l1 with
  | nil => rfl
  | cons e l ih =>
    cases e with
    | msg q ev =>
      by_cases hq : q = p
      · simp [msgEvents, hq, ih]
      · simp [msgEvents, hq, ih]
    | commit => simp [msgEvents, ih]

theorem msgEvents_map_tag (p q : String) (l : List MEvent) :
    msgEvents p (l.map (BEvent.msg q)) = if q = p then l else [] := by
  induction l with
  | nil => simp [msgEvents]
  | cons e l ih =>
    by_cases hq : q = p
    · simp [msgEvents, hq] at ih ⊢
      exact ih
    · simp [msgEvents, hq] at ih ⊢
      exact ih

theorem cnt_msgEvents (p : String) (ev : MEvent) (l : List BEvent) :
    cnt (BEvent.msg p ev) l = cnt ev (msgEvents p l) := by
  induction l with
  | nil => rfl
  | cons e l ih =>
    cases e with
    | msg q e2 =>
      by_cases hq : q = p
      · subst hq
        by_cases he : e2 = ev
        · subst he
          simp [cnt, msgEvents, ih]
        · simp [cnt, msgEvents, he, ih]
      · have hne : BEvent.msg q e2 ≠ BEvent.msg p ev := by
          intro hc
          cases hc
          exact hq rfl
        simp [cnt, msgEvents, hq, hne, ih]
    | commit =>
      have hne : BEvent.commit ≠ BEvent.msg p ev := by
        intro hc
        cases hc
      simp [cnt, msgEvents, hne, ih]

theorem mem_msgEvents (p : String) (ev : MEvent) (l : List BEvent) :
    ev ∈ msgEvents p l ↔ BEvent.msg p ev ∈ l := by
  induction l with
  | nil => simp [msgEvents]
  | cons e l ih =>
    cases e with
    | msg q e2 =>
      by_cases hq : q = p
      · subst hq
        simp only [msgEvents, if_pos rfl, List.mem_cons, ih, BEvent.msg.injEq, true_and,
          ite_true]
      · simp only [msgEvents, if_neg hq, List.mem_cons, ih, BEvent.msg.injEq]
        constructor
        · intro h
          right
          exact h
        · rintro (⟨h1, h2⟩ | h)
          · exact absurd h1.symm hq
          · exact h
    | commit =>
      simp only [msgEvents, List.mem_cons, ih]
      constructor
      · intro h
        right
        exact h
      · rintro (h | h)
        · cases h
        · exact h

theorem loadAll_ok_cons (loads : String → Except String MessageToOrchestrator)
    (p : String) (ps : List String) (ms : List MessageToOrchestrator)
    (h : loadAll loads (p :: ps) = Except.ok ms) :
    ∃ m ms2, loads p = Except.ok m ∧ loadAll loads ps = Except.ok ms2 ∧ ms = m :: ms2 := by
  cases hp : loads p with
  | error e =>
    simp [loadAll, hp] at h
  | ok m =>
    cases hps : loadAll loads ps with
    | error e =>
      simp [loadAll, hp, hps] at h
    | ok ms2 =>
      simp [loadAll, hp, hps] at h
      exact ⟨m, ms2, rfl, rfl, h.symm⟩

theorem loadAll_forall2 (loads : String → Except String MessageToOrchestrator)
    (us : List String) (ms : List MessageToOrchestrator)
    (h : loadAll loads us = Except.ok ms) :
    List.Forall₂ (fun p m => loads p = Except.ok m) us ms := by
  induction us generalizing ms with
  | nil =>
    simp [loadAll] at h
    subst h
    exact List.Forall₂.nil
  | cons p ps ih =>
    obtain ⟨m, ms2, hm, hps, hcons⟩ := loadAll_ok_cons loads p ps ms h
    subst hcons
    exact List.Forall₂.cons hm (ih ms2 hps)

theorem commit_not_mem_batchBody (t : Topics) (pol : Option RetryPolicy)
    (env : String → Nat → AttemptOutcome) (us : List String)
    (ms : List MessageToOrchestrator) :
    BEvent.commit ∉ batchBody t pol env us ms := by
  induction us generalizing ms with
  | nil => simp [batchBody]
  | cons p ps ih =>
    cases ms with
    | nil => simp [batchBody]
    | cons m ms2 =>
      simp only [batchBody, List.mem_append, List.mem_map, not_or]
      constructor
      · intro ⟨e, _, hc⟩
        cases hc
      · exact ih ms2

theorem msgEvents_batchBody_not_mem (t : Topics) (pol : Option RetryPolicy)
    (env : String → Nat → AttemptOutcome) (p : String) (us : List String)
    (ms : List MessageToOrchestrator) (hp : p ∉ us) :
    msgEvents p (batchBody t pol env us ms) = [] := by
  induction us generalizing ms with
  | nil => simp [batchBody, msgEvents]
  | cons q qs ih =>
    cases ms with
    | nil => simp [batchBody, msgEvents]
    | cons m ms2 =>
      simp only [List.mem_cons, not_or] at hp
      rw [batchBody, msgEvents_append, msgEvents_map_tag, if_neg (Ne.symm hp.1), ih ms2 hp.2]
      rfl

theorem msgEvents_batchBody (t : Topics) (pol : Option RetryPolicy)
    (env : String → Nat → AttemptOutcome)
    (loads : String → Except String MessageToOrchestrator)
    (p : String) (us : List String) (ms : List MessageToOrchestrator)
    (hnd : us.Nodup) (h : loadAll loads us = Except.ok ms) (hp : p ∈ us) :
    ∃ m, loads p = Except.ok m ∧
      msgEvents p (batchBody t pol env us ms) = eachTrace t pol (env p) m := by
  induction us generalizing ms with
  | nil => cases hp
  | cons q qs ih =>
    obtain ⟨m, ms2, hm, hqs, hcons⟩ := loadAll_ok_cons loads q qs ms h
    subst hcons
    rcases List.mem_cons.mp hp with hpq | hpqs
    · subst hpq
      refine ⟨m, hm, ?_⟩
      rw [batchBody, msgEvents_append, msgEvents_map_tag, if_pos rfl,
        msgEvents_batchBody_not_mem t pol env p qs ms2 (List.Nodup.not_mem hnd),
        List.append_nil]
    · have hqp : q ≠ p := by
        intro hc
        subst hc
        exact List.Nodup.not_mem hnd hpqs
      obtain ⟨m2, hm2, hrec⟩ := ih ms2 ((List.nodup_cons.mp hnd).2) hqs hpqs
      refine ⟨m2, hm2, ?_⟩
      rw [batchBody, msgEvents_append, msgEvents_map_tag, if_neg hqp, List.nil_append, hrec]

theorem anext_ok_inv (t : Topics) (pol : Option RetryPolicy)
    (loads : String → Except String MessageToOrchestrator)
    (env : String → Nat → AttemptOutcome) (recs : List (List String))
    (trace : List BEvent) (msgs : List MessageToOrchestrator)
    (h : anext t pol loads env recs = Except.ok (trace, msgs)) :
    loadAll loads (uniqPayloads recs) = Except.ok msgs ∧
      trace = batchBody t pol env (uniqPayloads recs) msgs ++ [BEvent.commit] := by
  unfold anext at h
  cases hl : loadAll loads (uniqPayloads recs) with
  | error e =>
    rw [hl] at h
    cases h
  | ok ms =>
    rw [hl] at h
    injection h with h2
    have h3 := congrArg Prod.fst h2
    have h4 := congrArg Prod.snd h2
    simp only at h3 h4
    rw [h4] at h3
    exact ⟨by rw [h4], h3.symm⟩

theorem engineTick_not_mem_attemptRest (st : LoopState) :
    AEvent.engineTick ∉ attemptRest st := by
  unfold attemptRest
  by_cases ht : st.tick_result
  · rw [if_pos ht]
    cases hnt : newTasks st with
    | nil =>
      by_cases hf : st.has_put_checkpoint_fut
      · simp [hf]
      · simp [hf]
    | cons t ts =>
      by_cases hf : st.has_put_checkpoint_fut <;>
        simp [hf, List.mem_append, List.mem_map]
  · rw [if_neg ht]
    simp

theorem attemptTrace_split (st : LoopState) :
    ∃ l1 l2, attemptTrace st = l1 ++ l2 ∧
      (∀ b w, AEvent.putWrite b w ∉ l1) ∧
      (∀ a, AEvent.ackExecutor a ∉ l2) ∧
      (st.tick_result = true → ∀ t ∈ newTasks st,
        AEvent.ackExecutor t.id ∈ l1 ∧
          AEvent.putWrite t.id [(SCHEDULED, scheduledVersion st)] ∈ l2) := by
  by_cases ht : st.tick_result
  · cases hnt : newTasks st with
    | nil =>
      refine ⟨attemptTrace st, [], (List.append_nil _).symm, ?_, by simp, ?_⟩
      · intro b w hmem
        simp only [attemptTrace, attemptRest, if_pos ht, hnt] at hmem
        by_cases hf : st.has_put_checkpoint_fut <;> simp [hf] at hmem
      · intro _ t htm
        cases htm
    | cons t0 ts =>
      refine ⟨AEvent.engineTick ::
          ((if st.has_put_checkpoint_fut then [AEvent.awaitCheckpoint] else []) ++
            (((t0 :: ts).map fun t => AEvent.sendExecutor (executorMessage st t)) ++
              ((t0 :: ts).map fun t => AEvent.ackExecutor t.id))),
        (t0 :: ts).map fun t => AEvent.putWrite t.id [(SCHEDULED, scheduledVersion st)],
        ?_, ?_, ?_, ?_⟩
      · simp only [attemptTrace, attemptRest, if_pos ht, hnt]
        simp [List.append_assoc]
      · intro b w hmem
        by_cases hf : st.has_put_checkpoint_fut <;>
          simp [hf, List.mem_append, List.mem_map] at hmem
      · intro a hmem
        simp [List.mem_map] at hmem
      · intro _ t htm
        constructor
        · simp only [List.mem_cons, List.mem_append, List.mem_map]
          right
          right
          right
          exact ⟨t, by simpa using htm, rfl⟩
        · simp only [List.mem_map]
          exact ⟨t, htm, rfl⟩
  · refine ⟨[AEvent.engineTick], [], ?_, ?_, by simp, ?_⟩
    · simp [attemptTrace, attemptRest, ht]
    · intro b w hmem
      simp at hmem
    · intro hc
      exact absurd hc ht

theorem aretryGo_first_ok (env : Nat → AttemptOutcome) (k n : Nat) (st : LoopState)
    (h : env k = AttemptOutcome.ok st) (hn : 1 ≤ n) :
    aretryGo env k n = (attemptTrace st, Except.ok ()) := by
  cases n with
  | zero => omega
  | succ m => simp [aretryGo, h]

theorem aretryGo_exhaust (n : Nat) (env : Nat → AttemptOutcome) (k : Nat) (hn : 1 ≤ n)
    (hf : ∀ j, j < n → ∀ st2, env (k + j) ≠ AttemptOutcome.ok st2)
    (tr : List AEvent) (e : String)
    (hlast : env (k + n - 1) = AttemptOutcome.fail tr e) :
    ∃ trAll, aretryGo env k n = (trAll, Except.error e) := by
  induction n generalizing k with
  | zero => omega
  | succ m ih =>
    cases hk : env k with
    | ok st2 =>
      exact absurd hk (by simpa using hf 0 (by omega) st2)
    | fail tr0 e0 =>
      cases m with
      | zero =>
        have : env k = AttemptOutcome.fail tr e := by simpa using hlast
        rw [hk] at this
        injection this with h1 h2
        subst h1
        subst h2
        exact ⟨tr0, by simp [aretryGo, hk]⟩
      | succ m2 =>
        have hf2 : ∀ j, j < m2 + 1 → ∀ st2, env (k + 1 + j) ≠ AttemptOutcome.ok st2 := by
          intro j hj st2
          have := hf (j + 1) (by omega) st2
          rwa [show k + (j + 1) = k + 1 + j by omega] at this
        have hlast2 : env (k + 1 + (m2 + 1) - 1) = AttemptOutcome.fail tr e := by
          rwa [show k + 1 + (m2 + 1) - 1 = k + (m2 + 2) - 1 by omega]
        obtain ⟨trAll2, h2⟩ := ih (k + 1) (by omega) hf2 hlast2
        refine ⟨tr0 ++ trAll2, ?_⟩
        simp [aretryGo, hk, h2]

theorem eachTrace_first_ok (t : Topics) (pol : Option RetryPolicy)
    (env : Nat → AttemptOutcome) (m : MessageToOrchestrator) (st : LoopState)
    (h : env 0 = AttemptOutcome.ok st) (hn : 1 ≤ attemptsOf pol) :
    eachTrace t pol env m = (attemptTrace st).map MEvent.att := by
  unfold eachTrace
  rw [aretryGo_first_ok env 0 (attemptsOf pol) st h hn]

theorem eachTrace_exhaust (t : Topics) (pol : Option RetryPolicy)
    (env : Nat → AttemptOutcome) (m : MessageToOrchestrator)
    (hn : 1 ≤ attemptsOf pol)
    (hf : ∀ j, j < attemptsOf pol → ∀ st2, env j ≠ AttemptOutcome.ok st2)
    (tr : List AEvent) (e : String)
    (hlast : env (attemptsOf pol - 1) = AttemptOutcome.fail tr e) :
    ∃ trAll : List AEvent, eachTrace t pol env m =
      trAll.map MEvent.att ++ [MEvent.sendError ⟨t.orchestrator, m, e⟩] := by
  have hf0 : ∀ j, j < attemptsOf pol → ∀ st2, env (0 + j) ≠ AttemptOutcome.ok st2 := by
    intro j hj st2
    simpa using hf j hj st2
  have hlast0 : env (0 + attemptsOf pol - 1) = AttemptOutcome.fail tr e := by
    simpa using hlast
  obtain ⟨trAll, hgo⟩ := aretryGo_exhaust (attemptsOf pol) env 0 hn hf0 tr e hlast0
  refine ⟨trAll, ?_⟩
  unfold eachTrace
  rw [hgo]

theorem cnt_map_att (e : AEvent) (l : List AEvent) :
    cnt (MEvent.att e) (l.map MEvent.att) = cnt e l := by
  induction l with
  | nil => rfl
  | cons y l ih =>
    by_cases hy : y = e
    · subst hy
      simp [cnt, ih]
    · have : MEvent.att y ≠ MEvent.att e := by
        intro hc
        injection hc with h2
        exact hy h2
      simp [cnt, hy, this, ih]

theorem cnt_engineTick_attemptTrace (st : LoopState) :
    cnt AEvent.engineTick (attemptTrace st) = 1 := by
  rw [attemptTrace]
  simp [cnt, cnt_eq_zero _ _ (engineTick_not_mem_attemptRest st)]

theorem putWrite_mem_shape (st : LoopState) (tid : String)
    (w : List (String × Option Nat))
    (h : AEvent.putWrite tid w ∈ attemptTrace st) :
    w = [(SCHEDULED, scheduledVersion st)] := by
  simp only [attemptTrace, List.mem_cons] at h
  rcases h with hc | h
  · cases hc
  unfold attemptRest at h
  by_cases ht : st.tick_result
  · rw [if_pos ht] at h
    rcases List.mem_append.mp h with h | h
    · by_cases hf : st.has_put_checkpoint_fut <;> simp [hf] at h
    · cases hnt : newTasks st with
      | nil =>
        rw [hnt] at h
        cases h
      | cons t0 ts =>
        rw [hnt] at h
        rcases List.mem_append.mp h with h | h
        · rcases List.mem_append.mp h with h | h
          · obtain ⟨a, _, hc⟩ := List.mem_map.mp h
            cases hc
          · obtain ⟨a, _, hc⟩ := List.mem_map.mp h
            cases hc
        · obtain ⟨a, _, hc⟩ := List.mem_map.mp h
          injection hc with h1 h2
          exact h2.symm
  · rw [if_neg ht] at h
    cases h

theorem sendExecutor_mem_shape (st : LoopState) (m : MessageToExecutor)
    (h : AEvent.sendExecutor m ∈ attemptTrace st) :
    ∃ u ∈ newTasks st, m = executorMessage st u := by
  simp only [attemptTrace, List.mem_cons] at h
  rcases h with hc | h
  · cases hc
  unfold attemptRest at h
  by_cases ht : st.tick_result
  · rw [if_pos ht] at h
    rcases List.mem_append.mp h with h | h
    · by_cases hf : st.has_put_checkpoint_fut <;> simp [hf] at h
    · cases hnt : newTasks st with
      | nil =>
        rw [hnt] at h
        cases h
      | cons t0 ts =>
        rw [hnt] at h
        rcases List.mem_append.mp h with h | h
        · rcases List.mem_append.mp h with h | h
          · obtain ⟨a, ha, hc⟩ := List.mem_map.mp h
            injection hc with h1
            exact ⟨a, hnt.symm ▸ ha, h1.symm⟩
          · obtain ⟨a, _, hc⟩ := List.mem_map.mp h
            cases hc
        · obtain ⟨a, _, hc⟩ := List.mem_map.mp h
          cases hc
  · rw [if_neg ht] at h
    cases h

theorem attemptRest_eq_of_cons (st : LoopState) (t0 : PregelTask) (ts : List PregelTask)
    (htick : st.tick_result = true) (hnt : newTasks st = t0 :: ts) :
    attemptRest st =
      (if st.has_put_checkpoint_fut then [AEvent.awaitCheckpoint] else []) ++
      (((t0 :: ts).map fun u => AEvent.sendExecutor (executorMessage st u)) ++
       ((t0 :: ts).map fun u => AEvent.ackExecutor u.id) ++
       ((t0 :: ts).map fun u => AEvent.putWrite u.id [(SCHEDULED, scheduledVersion st)])) := by
  rw [attemptRest, if_pos htick, hnt]

end Lemmas

section Claims

open KafkaOrchestrator

/-- C1: In every successful tick, all producer acknowledgments precede every
persisted SCHEDULED write in the attempt event trace, and for every task in
new_tasks the acknowledgment of its executor message precedes the put_writes
event recording its SCHEDULED flag. -/
theorem C1_acks_precede_scheduled_writes (st : LoopState)
    (htick : st.tick_result = true) :
    (∀ i j a b w, (attemptTrace st).get? i = some (AEvent.ackExecutor a) →
      (attemptTrace st).get? j = some (AEvent.putWrite b w) → i < j) ∧
    (∀ t ∈ newTasks st, ∃ i j,
      (attemptTrace st).get? i = some (AEvent.ackExecutor t.id) ∧
      (attemptTrace st).get? j =
        some (AEvent.putWrite t.id [(SCHEDULED, scheduledVersion st)]) ∧
      i < j) := by
  obtain ⟨l1, l2, heq, hw1, ha2, hmem⟩ := attemptTrace_split st
  have main : ∀ i j a b w, (attemptTrace st).get? i = some (AEvent.ackExecutor a) →
      (attemptTrace st).get? j = some (AEvent.putWrite b w) → i < j := by
    intro i j a b w hi hj
    rw [heq] at hi hj
    have hil : i < l1.length := by
      by_contra hc
      push_neg at hc
      rw [List.get?_append_right hc] at hi
      exact ha2 a (List.get?_mem hi)
    have hjl : l1.length ≤ j := by
      by_contra hc
      push_neg at hc
      rw [List.get?_append hc] at hj
      exact hw1 b w (List.get?_mem hj)
    omega
  refine ⟨main, ?_⟩
  intro t ht
  obtain ⟨hack, hwrite⟩ := hmem htick t ht
  have h1 : AEvent.ackExecutor t.id ∈ attemptTrace st := by
    rw [heq]
    exact List.mem_append_left _ hack
  have h2 : AEvent.putWrite t.id [(SCHEDULED, scheduledVersion st)] ∈ attemptTrace st := by
    rw [heq]
    exact List.mem_append_right _ hwrite
  obtain ⟨i, hi⟩ := List.mem_iff_get?.mp h1
  obtain ⟨j, hj⟩ := List.mem_iff_get?.mp h2
  exact ⟨i, j, hi, hj, main i j _ _ _ hi hj⟩

/-- Witness for C1 at the concrete loop state st0. -/
theorem C1_witness :
    st0.tick_result = true ∧ task0 ∈ newTasks st0 ∧
    ∃ i j, (attemptTrace st0).get? i = some (AEvent.ackExecutor task0.id) ∧
      (attemptTrace st0).get? j =
        some (AEvent.putWrite task0.id [(SCHEDULED, scheduledVersion st0)]) ∧
      i < j :=
  ⟨rfl, by decide, (C1_acks_precede_scheduled_writes st0 rfl).2 task0 (by decide)⟩

/-- C2 counterexample: on an empty batch the iteration still performs the consumer
commit call, contrary to the claim that no offsets are committed. -/
theorem C2_counterexample :
    anext topics0 none loads0 env0 [] = Except.ok ([BEvent.commit], []) ∧
    BEvent.commit ∈ [BEvent.commit] :=
  ⟨by decide, List.mem_cons_self _ _⟩

/-- C2 amended: an iteration that receives an empty batch returns an empty list
and routes no error, but the consumer commit call is still issued unconditionally
(with no consumed records it cannot advance any offset). -/
theorem C2_empty_batch (t : Topics) (pol : Option RetryPolicy)
    (loads : String → Except String MessageToOrchestrator)
    (env : String → Nat → AttemptOutcome) (recs : List (List String))
    (h : recs.flatten = []) :
    anext t pol loads env recs = Except.ok ([BEvent.commit], []) := by
  have hu : uniqPayloads recs = [] := by simp [uniqPayloads, h]
  unfold anext
  rw [hu]
  rfl

/-- Witness for C2 at the concrete empty batch. -/
theorem C2_witness :
    (([] : List (List String)).flatten = []) ∧
    anext topics0 none loads0 env0 [] = Except.ok ([BEvent.commit], []) :=
  ⟨rfl, C2_empty_batch topics0 none loads0 env0 [] rfl⟩

/-- C3 counterexample: a batch holding a payload that fails deserialization makes
the whole iteration raise: no record is produced on the error topic, no offset is
committed, and the other payload of the batch is not processed, contrary to the
claim of per-message error routing with a normal commit. -/
theorem C3_counterexample :
    anext topics0 none loads0 env0 [["bad", "good"]] =
      Except.error "ValueError: bad payload" ∧
    ∀ out : List BEvent × List MessageToOrchestrator,
      anext topics0 none loads0 env0 [["bad", "good"]] ≠ Except.ok out := by
  have h0 : anext topics0 none loads0 env0 [["bad", "good"]] =
      Except.error "ValueError: bad payload" := by decide
  refine ⟨h0, ?_⟩
  intro out h
  rw [h0] at h
  cases h

/-- C3 amended: deserialization happens in the batch scaffold before any
per-message dispatch and only ConsumerStoppedError is caught there, so a payload
failing deserialization makes the iteration itself fail with that error: no event
at all is performed, in particular no error-topic record and no commit, and the
rest of the batch is not processed. -/
theorem C3_deser_failure_propagates (t : Topics) (pol : Option RetryPolicy)
    (loads : String → Except String MessageToOrchestrator)
    (env : String → Nat → AttemptOutcome) (recs : List (List String)) (e : String)
    (h : loadAll loads (uniqPayloads recs) = Except.error e) :
    anext t pol loads env recs = Except.error e := by
  unfold anext
  rw [h]

/-- Witness for C3 at the concrete bad payload. -/
theorem C3_witness :
    loadAll loads0 (uniqPayloads [["bad", "good"]]) =
      Except.error "ValueError: bad payload" ∧
    anext topics0 none loads0 env0 [["bad", "good"]] =
      Except.error "ValueError: bad payload" :=
  ⟨by decide,
   C3_deser_failure_propagates topics0 none loads0 env0 [["bad", "good"]] _ (by decide)⟩

/-- C4: For every non-empty batch whose iteration completes, the commit event
occurs exactly once, it is the final event of the iteration trace, and for every
unique payload of the batch the complete per-message processing trace of its
message (ending in success or in an error-topic send) is present before it. -/
theorem C4_commit_once_after_processing (t : Topics) (pol : Option RetryPolicy)
    (loads : String → Except String MessageToOrchestrator)
    (env : String → Nat → AttemptOutcome) (recs : List (List String))
    (trace : List BEvent) (msgs : List MessageToOrchestrator)
    (hne : recs.flatten ≠ [])
    (h : anext t pol loads env recs = Except.ok (trace, msgs)) :
    cnt BEvent.commit trace = 1 ∧
    (∃ body, trace = body ++ [BEvent.commit] ∧ BEvent.commit ∉ body) ∧
    (∀ p ∈ uniqPayloads recs, ∃ m, loads p = Except.ok m ∧
      msgEvents p trace = eachTrace t pol (env p) m) := by
  obtain ⟨hload, htr⟩ := anext_ok_inv t pol loads env recs trace msgs h
  subst htr
  refine ⟨?_, ⟨_, rfl, commit_not_mem_batchBody t pol env _ msgs⟩, ?_⟩
  · rw [cnt_append, cnt_eq_zero _ _ (commit_not_mem_batchBody t pol env _ msgs)]
    rfl
  · intro p hp
    obtain ⟨m, hm, hme⟩ := msgEvents_batchBody t pol env loads p _ msgs
      (by simpa [uniqPayloads] using List.nodup_dedup recs.flatten) hload hp
    refine ⟨m, hm, ?_⟩
    rw [msgEvents_append, hme]
    simp [msgEvents]

/-- Witness for C4 at the concrete one-payload batch. -/
theorem C4_witness :
    ((([["p1"]] : List (List String)).flatten ≠ []) ∧
      anext topics0 none loads0 env0 [["p1"]] =
        Except.ok (trace4, [⟨CVal.s "p1", cfg0⟩])) ∧
    (cnt BEvent.commit trace4 = 1 ∧
      (∃ body, trace4 = body ++ [BEvent.commit] ∧ BEvent.commit ∉ body) ∧
      (∀ p ∈ uniqPayloads [["p1"]], ∃ m, loads0 p = Except.ok m ∧
        msgEvents p trace4 = eachTrace topics0 none (env0 p) m)) :=
  ⟨⟨by decide, by decide⟩,
   C4_commit_once_after_processing topics0 none loads0 env0 [["p1"]] trace4
     [⟨CVal.s "p1", cfg0⟩] (by decide) (by decide)⟩

/-- C5: Messages with byte-identical payloads collapse to a single processing
attempt: when every first attempt succeeds, the engine tick is invoked exactly
once per distinct payload of the batch, and the yielded list is elementwise the
deserialization of the deduplicated payload list, which has no duplicates and the
same members as the raw batch. -/
theorem C5_dedupe (t : Topics) (pol : Option RetryPolicy)
    (loads : String → Except String MessageToOrchestrator)
    (env : String → Nat → AttemptOutcome) (recs : List (List String))
    (trace : List BEvent) (msgs : List MessageToOrchestrator)
    (h : anext t pol loads env recs = Except.ok (trace, msgs))
    (hn : 1 ≤ attemptsOf pol)
    (hok : ∀ p ∈ uniqPayloads recs, ∃ st, env p 0 = AttemptOutcome.ok st) :
    (∀ p ∈ recs.flatten,
      cnt (BEvent.msg p (MEvent.att AEvent.engineTick)) trace = 1) ∧
    List.Forall₂ (fun p m => loads p = Except.ok m) (uniqPayloads recs) msgs ∧
    (uniqPayloads recs).Nodup ∧
    (∀ p, p ∈ uniqPayloads recs ↔ p ∈ recs.flatten) := by
  obtain ⟨hload, htr⟩ := anext_ok_inv t pol loads env recs trace msgs h
  subst htr
  refine ⟨?_, loadAll_forall2 loads _ msgs hload,
    by simpa [uniqPayloads] using List.nodup_dedup recs.flatten,
    fun p => by simp [uniqPayloads, List.mem_dedup]⟩
  intro p hp
  have hpu : p ∈ uniqPayloads recs := List.mem_dedup.mpr hp
  obtain ⟨m, hm, hme⟩ := msgEvents_batchBody t pol env loads p _ msgs
    (by simpa [uniqPayloads] using List.nodup_dedup recs.flatten) hload hpu
  obtain ⟨st, hst⟩ := hok p hpu
  rw [cnt_append, cnt_msgEvents, hme, eachTrace_first_ok t pol (env p) m st hst hn,
    cnt_map_att, cnt_engineTick_attemptTrace]
  have : cnt (BEvent.msg p (MEvent.att AEvent.engineTick)) [BEvent.commit] = 0 :=
    cnt_eq_zero _ _ (by simp)
  rw [this]

/-- Witness for C5 at the concrete batch holding the same payload twice. -/
theorem C5_witness :
    (anext topics0 none loads0 env0 [["p1", "p1"]] =
        Except.ok (trace4, [⟨CVal.s "p1", cfg0⟩]) ∧
      1 ≤ attemptsOf none ∧
      (∀ p ∈ uniqPayloads [["p1", "p1"]], ∃ st, env0 p 0 = AttemptOutcome.ok st)) ∧
    ((∀ p ∈ ([["p1", "p1"]] : List (List String)).flatten,
        cnt (BEvent.msg p (MEvent.att AEvent.engineTick)) trace4 = 1) ∧
      List.Forall₂ (fun p m => loads0 p = Except.ok m) (uniqPayloads [["p1", "p1"]])
        [⟨CVal.s "p1", cfg0⟩] ∧
      (uniqPayloads [["p1", "p1"]]).Nodup ∧
      (∀ p, p ∈ uniqPayloads [["p1", "p1"]] ↔
        p ∈ ([["p1", "p1"]] : List (List String)).flatten)) :=
  ⟨⟨by decide, by decide, fun p _ => ⟨st0, rfl⟩⟩,
   C5_dedupe topics0 none loads0 env0 [["p1", "p1"]] trace4 [⟨CVal.s "p1", cfg0⟩]
     (by decide) (by decide) (fun p _ => ⟨st0, rfl⟩)⟩

/-- C6: Every SCHEDULED write persisted by a tick carries the maximum version
across the values of the INTERRUPT entry of the checkpoint versions_seen map, and
carries null when that entry is absent. -/
theorem C6_scheduled_write_value (st st2 : LoopState) (tid tid2 : String)
    (w w2 : List (String × Option Nat))
    (h : AEvent.putWrite tid w ∈ attemptTrace st)
    (h2 : AEvent.putWrite tid2 w2 ∈ attemptTrace st2)
    (habs : st2.versions_seen.lookup INTERRUPT = none) :
    w = [(SCHEDULED,
      maxOpt (((st.versions_seen.lookup INTERRUPT).getD []).map Prod.snd))] ∧
    w2 = [(SCHEDULED, none)] := by
  have hw := putWrite_mem_shape st tid w h
  have hw2 := putWrite_mem_shape st2 tid2 w2 h2
  refine ⟨hw, ?_⟩
  rw [hw2]
  rw [scheduledVersion, habs]
  rfl

/-- Witness for C6 at the concrete loop states st0 (INTERRUPT present with maximum
version 3) and st1 (versions_seen empty). -/
theorem C6_witness :
    (AEvent.putWrite "task-1" [(SCHEDULED, some 3)] ∈ attemptTrace st0 ∧
      AEvent.putWrite "task-1" [(SCHEDULED, none)] ∈ attemptTrace st1 ∧
      st1.versions_seen.lookup INTERRUPT = none) ∧
    ([(SCHEDULED, some 3)] = [(SCHEDULED,
        maxOpt (((st0.versions_seen.lookup INTERRUPT).getD []).map Prod.snd))] ∧
      [(SCHEDULED, (none : Option Nat))] = [(SCHEDULED, none)]) :=
  ⟨⟨by decide, by decide, by decide⟩,
   C6_scheduled_write_value st0 st1 "task-1" "task-1" [(SCHEDULED, some 3)]
     [(SCHEDULED, none)] (by decide) (by decide) (by decide)⟩

/-- C7: Every executor message dispatched by a tick has config equal to the loop
config patched with the configurable identifiers of the freshly written checkpoint
dict-merged with the dedupe_tasks key set to true, and a task record holding
exactly the task id and path; conversely every dispatched executor message has
this shape for some task of new_tasks. -/
theorem C7_executor_message_shape (st : LoopState) (htick : st.tick_result = true)
    (t : PregelTask) (ht : t ∈ newTasks st) :
    AEvent.sendExecutor
      { config := patch_configurable st.config
          (dictMerge st.checkpoint_configurable [(CONFIG_KEY_DEDUPE_TASKS, CVal.b true)])
      , task := { id := t.id, path := t.path } } ∈ attemptTrace st ∧
    (∀ m : MessageToExecutor, AEvent.sendExecutor m ∈ attemptTrace st →
      ∃ u ∈ newTasks st, m = executorMessage st u) := by
  refine ⟨?_, fun m hm => sendExecutor_mem_shape st m hm⟩
  cases hnt : newTasks st with
  | nil =>
    rw [hnt] at ht
    cases ht
  | cons t0 ts =>
    have hrest := attemptRest_eq_of_cons st t0 ts htick hnt
    have hsend : AEvent.sendExecutor (executorMessage st t) ∈
        (t0 :: ts).map fun u => AEvent.sendExecutor (executorMessage st u) :=
      List.mem_map_of_mem _ (hnt ▸ ht)
    have hmem : AEvent.sendExecutor (executorMessage st t) ∈ attemptRest st := by
      rw [hrest]
      exact List.mem_append_right _
        (List.mem_append_left _ (List.mem_append_left _ hsend))
    exact List.mem_cons_of_mem _ hmem

/-- Witness for C7 at the concrete loop state st0. -/
theorem C7_witness :
    (st0.tick_result = true ∧ task0 ∈ newTasks st0) ∧
    AEvent.sendExecutor
      { config := patch_configurable st0.config
          (dictMerge st0.checkpoint_configurable [(CONFIG_KEY_DEDUPE_TASKS, CVal.b true)])
      , task := { id := task0.id, path := task0.path } } ∈ attemptTrace st0 :=
  ⟨⟨rfl, by decide⟩,
   (C7_executor_message_shape st0 rfl task0 (by decide)).1⟩

/-- C8: When the tick returns false the attempt performs nothing beyond the tick
itself: no checkpoint wait, no executor send, no SCHEDULED write. When the tick
returns true but yields no unscheduled task, the attempt trace is exactly the tick
followed by the checkpoint-durability wait (present whenever the loop exposes the
checkpoint future): no send and no write is performed. -/
theorem C8_frame_conditions (st st2 : LoopState)
    (h : st.tick_result = false)
    (h2 : st2.tick_result = true) (h3 : newTasks st2 = []) :
    attemptTrace st = [AEvent.engineTick] ∧
    attemptTrace st2 = AEvent.engineTick ::
      (if st2.has_put_checkpoint_fut then [AEvent.awaitCheckpoint] else []) ∧
    (st2.has_put_checkpoint_fut = true →
      AEvent.awaitCheckpoint ∈ attemptTrace st2) := by
  have ha : attemptTrace st = [AEvent.engineTick] := by
    rw [attemptTrace, attemptRest, if_neg (by simp [h])]
  have hb : attemptTrace st2 = AEvent.engineTick ::
      (if st2.has_put_checkpoint_fut then [AEvent.awaitCheckpoint] else []) := by
    rw [attemptTrace, attemptRest, if_pos h2, h3]
    simp
  refine ⟨ha, hb, ?_⟩
  intro hf
  rw [hb, hf]
  simp

/-- Witness for C8 at the concrete loop states stf (false tick) and stn (true tick
with the only task already scheduled). -/
theorem C8_witness :
    (stf.tick_result = false ∧ stn.tick_result = true ∧ newTasks stn = []) ∧
    (attemptTrace stf = [AEvent.engineTick] ∧
      attemptTrace stn = AEvent.engineTick ::
        (if stn.has_put_checkpoint_fut then [AEvent.awaitCheckpoint] else []) ∧
      (stn.has_put_checkpoint_fut = true →
        AEvent.awaitCheckpoint ∈ attemptTrace stn)) :=
  ⟨⟨rfl, rfl, by decide⟩,
   C8_frame_conditions stf stn rfl rfl (by decide)⟩

/-- C9: When the retry harness exhausts its attempts on one message of a completed
iteration, the trace holds exactly one error-topic send for that message, carrying
the orchestrator topic name, the original message and the repr of the last
failure; the iteration still ends in its commit and every other unique message of
the batch is processed in full. -/
theorem C9_exhausted_retries_route_error (t : Topics) (pol : Option RetryPolicy)
    (loads : String → Except String MessageToOrchestrator)
    (env : String → Nat → AttemptOutcome) (recs : List (List String))
    (trace : List BEvent) (msgs : List MessageToOrchestrator)
    (p : String) (m : MessageToOrchestrator) (tr : List AEvent) (e : String)
    (h : anext t pol loads env recs = Except.ok (trace, msgs))
    (hp : p ∈ uniqPayloads recs)
    (hm : loads p = Except.ok m)
    (hn : 1 ≤ attemptsOf pol)
    (hf : ∀ j, j < attemptsOf pol → ∀ st2, env p j ≠ AttemptOutcome.ok st2)
    (hlast : env p (attemptsOf pol - 1) = AttemptOutcome.fail tr e) :
    cnt (BEvent.msg p (MEvent.sendError ⟨t.orchestrator, m, e⟩)) trace = 1 ∧
    (∀ em : ErrorMessage, BEvent.msg p (MEvent.sendError em) ∈ trace →
      em = ⟨t.orchestrator, m, e⟩) ∧
    (∃ body, trace = body ++ [BEvent.commit] ∧ BEvent.commit ∉ body) ∧
    (∀ q ∈ uniqPayloads recs, ∃ mq, loads q = Except.ok mq ∧
      msgEvents q trace = eachTrace t pol (env q) mq) := by
  obtain ⟨hload, htr⟩ := anext_ok_inv t pol loads env recs trace msgs h
  subst htr
  have hnd : (uniqPayloads recs).Nodup := by
    simpa [uniqPayloads] using List.nodup_dedup recs.flatten
  have hall : ∀ q ∈ uniqPayloads recs, ∃ mq, loads q = Except.ok mq ∧
      msgEvents q (batchBody t pol env (uniqPayloads recs) msgs ++ [BEvent.commit]) =
        eachTrace t pol (env q) mq := by
    intro q hq
    obtain ⟨mq, hmq, hmeq⟩ := msgEvents_batchBody t pol env loads q _ msgs hnd hload hq
    refine ⟨mq, hmq, ?_⟩
    rw [msgEvents_append, hmeq]
    simp [msgEvents]
  obtain ⟨m2, hm2, hme⟩ := hall p hp
  have hmm : m2 = m := by
    rw [hm] at hm2
    injection hm2 with h1
    exact h1.symm
  subst hmm
  obtain ⟨trAll, he⟩ := eachTrace_exhaust t pol (env p) m2 hn hf tr e hlast
  have hmt : msgEvents p (batchBody t pol env (uniqPayloads recs) msgs ++ [BEvent.commit]) =
      trAll.map MEvent.att ++ [MEvent.sendError ⟨t.orchestrator, m2, e⟩] := by
    rw [hme, he]
  refine ⟨?_, ?_, ⟨_, rfl, commit_not_mem_batchBody t pol env _ msgs⟩, hall⟩
  · rw [cnt_msgEvents, hmt, cnt_append,
      cnt_eq_zero _ _ (show MEvent.sendError ⟨t.orchestrator, m2, e⟩ ∉
        trAll.map MEvent.att by simp)]
    simp [cnt]
  · intro em hmem
    have hin : MEvent.sendError em ∈
        msgEvents p (batchBody t pol env (uniqPayloads recs) msgs ++ [BEvent.commit]) :=
      (mem_msgEvents p (MEvent.sendError em) _).mpr hmem
    rw [hmt] at hin
    rcases List.mem_append.mp hin with hx | hx
    · obtain ⟨a, _, hc⟩ := List.mem_map.mp hx
      cases hc
    · rcases List.mem_cons.mp hx with hc | hc
      · simpa using hc
      · cases hc

/-- Witness for C9 at the concrete one-payload batch with a two-attempt policy and
an environment that always raises. -/
theorem C9_witness :
    (anext topics0 pol9 loads0 env9 [["px"]] = Except.ok (trace9, [m9]) ∧
      "px" ∈ uniqPayloads [["px"]] ∧ loads0 "px" = Except.ok m9 ∧
      1 ≤ attemptsOf pol9 ∧
      env9 "px" (attemptsOf pol9 - 1) = AttemptOutcome.fail [] "RuntimeError: boom") ∧
    (cnt (BEvent.msg "px"
        (MEvent.sendError ⟨topics0.orchestrator, m9, "RuntimeError: boom"⟩)) trace9 = 1 ∧
      (∀ em : ErrorMessage, BEvent.msg "px" (MEvent.sendError em) ∈ trace9 →
        em = ⟨topics0.orchestrator, m9, "RuntimeError: boom"⟩) ∧
      (∃ body, trace9 = body ++ [BEvent.commit] ∧ BEvent.commit ∉ body) ∧
      (∀ q ∈ uniqPayloads [["px"]], ∃ mq, loads0 q = Except.ok mq ∧
        msgEvents q trace9 = eachTrace topics0 pol9 (env9 q) mq)) :=
  ⟨⟨by decide, by decide, by decide, by decide, rfl⟩,
   C9_exhausted_retries_route_error topics0 pol9 loads0 env9 [["px"]] trace9 [m9]
     "px" m9 [] "RuntimeError: boom" (by decide) (by decide) (by decide) (by decide)
     (fun _ _ st2 hc => AttemptOutcome.noConfusion hc) rfl⟩

/-- C10: For a plain function the entrypoint decorator returns a graph holding
exactly one node, named after the function, whose only trigger and only input
channel is START, whose single writer writes the node return value to END, and
whose input channel is START while output and stream channels are END. -/
theorem C10_entrypoint_plain (ck st : Option String) (fname : String) :
    (entrypointGraph ck st ⟨fname, FuncKind.plain⟩).nodes =
      [(fname,
        { bound := Bound.runnable fname
        , triggers := [START]
        , channels := [START]
        , writers := [{ entries := [{ channel := END }], tags := [TAG_HIDDEN] }] })] ∧
    (entrypointGraph ck st ⟨fname, FuncKind.plain⟩).input_channels = START ∧
    (entrypointGraph ck st ⟨fname, FuncKind.plain⟩).output_channels = END ∧
    (entrypointGraph ck st ⟨fname, FuncKind.plain⟩).stream_channels = END :=
  ⟨rfl, rfl, rfl, rfl⟩

end Claims

end LangGraph

